import Mathlib

/-!
Verification development for the interactive bundle-curation workflow of
`bin/dipy_streamlines_viz.py`: the `Bundle` class (streamline grouping and
on-demand clustering) and the `StreamlinesVizu` registry (selection cycling,
accept/reject with a bounded undo memory).

The clustering engine (`dipy.segment.clustering.QuickBundles` with the
`AveragePointwiseEuclideanMetric` over `ResampleFeature(nb_points=30)`), the
`distinguishable_colormap` generator and the `line_colors` orientation colormap
live in parts of the repository that are not among the analysed sources; they
are modelled from the specification (each such definition carries a
`Modelled from the spec:` doc comment).  Everything else is translated from
`bin/dipy_streamlines_viz.py`.
-/

namespace SViz

/-- A streamline after the fixed feature transform (resampling to a fixed
point count): a list of coordinates.  Points are restricted to a single
coordinate axis, so each point is one rational coordinate; on that axis the
pointwise Euclidean distance reduces to the absolute coordinate difference. -/
abbrev Feature := List ℚ

/-- An RGB color. -/
abbrev Color := ℚ × ℚ × ℚ

/-- Absolute value on ℚ, written as an explicit branch so that concrete
computations reduce in the kernel. -/
def absQ (x : ℚ) : ℚ := if x < 0 then -x else x

/-- Modelled from the spec: the `AveragePointwiseEuclideanMetric` (MDF) of
`dipy.segment.metric` over resampled streamlines — the average, over
corresponding point pairs, of the pointwise Euclidean distance.  Restricted to
streamlines lying along one coordinate axis, the pointwise Euclidean distance
is the absolute coordinate difference. -/
def mdf (a b : Feature) : ℚ :=
  (List.zipWith (fun x y => absQ (x - y)) a b).sum / (a.length : ℚ)

/-- One cluster produced by the clustering engine: a representative centroid
and the indices (within the clustered collection) of its members. -/
structure QBCluster where
  centroid : Feature
  indices : List ℕ
deriving DecidableEq

/-- Modelled from the spec: the incremental centroid update of the clustering
engine — the centroid of a cluster of `k` members is replaced by the pointwise
mean after its `(k+1)`-st member joins. -/
def updateCentroid (c : Feature) (k : ℕ) (f : Feature) : Feature :=
  List.zipWith (fun ci fi => ((k : ℚ) * ci + fi) / ((k : ℚ) + 1)) c f

/-- Index of the cluster whose centroid is nearest to `f`, together with that
minimum distance (first occurrence wins on ties, as `argmin` does). -/
def minDistIdx (f : Feature) : List QBCluster → Option (ℕ × ℚ)
  | [] => none
  | c :: cs =>
    let d := mdf f c.centroid
    match minDistIdx f cs with
    | none => some (0, d)
    | some (j, d2) => if d ≤ d2 then some (0, d) else some (j + 1, d2)

/-- Add streamline `i` with feature `f` to the `j`-th cluster, updating that
cluster's centroid incrementally. -/
def addToCluster : List QBCluster → ℕ → ℕ → Feature → List QBCluster
  | [], _, _, _ => []
  | c :: rest, 0, i, f =>
    { centroid := updateCentroid c.centroid c.indices.length f,
      indices := c.indices ++ [i] } :: rest
  | c :: rest, j + 1, i, f => c :: addToCluster rest j i f

/-- Modelled from the spec: one step of the greedy single-pass assignment of
the clustering engine.  Streamline `i` (feature `f`) joins the nearest
existing cluster when the minimum distance is at most the threshold, and
otherwise founds a new cluster (appended in creation order). -/
def qbStep (t : WithTop ℚ) (acc : List QBCluster) (i : ℕ) (f : Feature) :
    List QBCluster :=
  match minDistIdx f acc with
  | none => acc ++ [⟨f, [i]⟩]
  | some (j, d) => if (d : WithTop ℚ) ≤ t then addToCluster acc j i f
                   else acc ++ [⟨f, [i]⟩]

/-- The assignment loop over the remaining streamlines, with `i` the index of
the next streamline. -/
def qbRun (t : WithTop ℚ) : ℕ → List QBCluster → List Feature → List QBCluster
  | _, acc, [] => acc
  | i, acc, f :: fs => qbRun t (i + 1) (qbStep t acc i f) fs

/-- Modelled from the spec: `QuickBundles(metric=metric, threshold=t).cluster`,
the deterministic agglomerative single-pass clustering used by
`Bundle._cluster`.  `⊤` is the `np.inf` threshold. -/
def qbCluster (t : WithTop ℚ) (fs : List Feature) : List QBCluster :=
  qbRun t 0 [] fs

/-- The module-level reserved set of near-black colors excluded from the
generated cluster colors (`darkcolors` in the script). -/
def darkcolors : List Color :=
  [((1:ℚ)/10, 0, 0), (1/10, 1/10, 0), (1/10, 1/10, 1/10),
   (0, 1/10, 0), (0, 1/10, 1/10),
   (0, 0, 1/10), (1/10, 0, 1/10)]

/-- Modelled from the spec: the `distinguishable_colormap` generator used for
cluster colors — a deterministic stream of colors avoiding the reserved
near-black set.  Only determinism and the plumbing of these colors matter to
the analysed claims, so the stream is modelled as an explicit injection whose
first component keeps every color away from `darkcolors`. -/
def genColor (i : ℕ) : Color := ((1 : ℚ), (i : ℚ), 0)

/-- Modelled from the spec: the `line_colors` orientation colormap — a
deterministic per-streamline fallback color (derived from the streamline's
endpoint orientation). -/
def lineColorM (f : Feature) : Color :=
  (absQ ((f.getLast?.getD 0) - (f.head?.getD 0)), 0, 0)

/-- The state of a `Bundle` object.  Rendering-only members (the VTK actors,
the renderer handle and the flattened per-point color buffers fed to VTK) are
external to the model; `original_colors` and `streamlines_colors` are kept at
per-streamline granularity (the script replicates them per point only to fill
the VTK scalar array). -/
structure Bundle where
  streamlines : List Feature
  color : Option Color
  centroid : Option Feature
  clusters : Option (List QBCluster)
  clusters_colors : List (Option Color)
  streamlines_colors : List Color
  threshold_used : Option (WithTop ℚ)
  last_threshold : Option (WithTop ℚ)
  has_changed : Bool
  centroids_visible : Bool
  streamlines_visible : Bool
  original_colors : List Color
deriving DecidableEq

/-- Write color `col` at every position of `idxs` in `cols`
(`self.streamlines_colors[cluster.indices] = color`). -/
def setIndices (cols : List Color) (idxs : List ℕ) (col : Color) : List Color :=
  idxs.foldl (fun acc i => acc.set i col) cols

/-- Apply the per-cluster color assignment loop of `Bundle._cluster`. -/
def applyClusterColors (cols : List Color) :
    List QBCluster → List Color → List Color
  | [], _ => cols
  | _, [] => cols
  | c :: cs, col :: colsRest =>
    applyClusterColors (setIndices cols c.indices col) cs colsRest

/-- `Bundle._cluster(threshold)`: re-cluster the streamlines, record the
threshold, regenerate the cluster colors, and mark the bundle dirty.  With a
single resulting cluster the initial bundle color is kept (explicit color if
set, else blue) and the per-streamline colors are left untouched; otherwise
every streamline is recolored by its cluster's generated color. -/
def Bundle._cluster (t : WithTop ℚ) (b : Bundle) : Bundle :=
  let cs := qbCluster t b.streamlines
  if cs.length = 1 then
    { b with
      last_threshold := some t
      clusters := some cs
      clusters_colors := [some (b.color.getD ((0 : ℚ), 0, 1))]
      has_changed := true }
  else
    { b with
      last_threshold := some t
      clusters := some cs
      clusters_colors := (List.range cs.length).map (fun i => some (genColor i))
      streamlines_colors :=
        applyClusterColors b.streamlines_colors cs
          ((List.range cs.length).map genColor)
      has_changed := true }

/-- `Bundle.__init__(streamlines, centroid, threshold_used, color)`: store the
inputs, set up the initial coloring (explicit color if given, else the
orientation colormap), and immediately cluster at the infinite threshold. -/
def Bundle.init (streamlines : List Feature) (centroid : Option Feature)
    (threshold_used : Option (WithTop ℚ)) (color : Option Color) : Bundle :=
  Bundle._cluster ⊤
    { streamlines := streamlines
      color := color
      centroid := centroid
      clusters := some []
      clusters_colors := [none]
      streamlines_colors := List.replicate streamlines.length ((1 : ℚ), 1, 1)
      threshold_used := threshold_used
      last_threshold := none
      has_changed := true
      centroids_visible := false
      streamlines_visible := true
      original_colors :=
        match color with
        | some c => List.replicate streamlines.length c
        | none => streamlines.map lineColorM }

/-- `Bundle.update()`: rebuild the centroid actors when dirty (the actors are
external; the state effect is clearing the dirty flag). -/
def Bundle.update (b : Bundle) : Bundle := { b with has_changed := false }

/-- `Bundle.show_centroids()`: run the deferred update, then make the centroid
representation visible. -/
def Bundle.show_centroids (b : Bundle) : Bundle :=
  { b.update with centroids_visible := true }

/-- `Bundle.hide_centroids()`. -/
def Bundle.hide_centroids (b : Bundle) : Bundle :=
  { b with centroids_visible := false }

/-- `Bundle.show_streamlines()`. -/
def Bundle.show_streamlines (b : Bundle) : Bundle :=
  { b with streamlines_visible := true }

/-- `Bundle.hide_streamlines()`. -/
def Bundle.hide_streamlines (b : Bundle) : Bundle :=
  { b with streamlines_visible := false }

/-- `Bundle.preview(threshold)`: re-cluster, run the deferred update, and
return the updated bundle together with the cluster count
(`len(self.clusters)`). -/
def Bundle.preview (t : WithTop ℚ) (b : Bundle) : Bundle × ℕ :=
  let b2 := (Bundle._cluster t b).update
  (b2, (b2.clusters.getD []).length)

/-- `Bundle.reset()`: collapse back to one whole-bundle cluster. -/
def Bundle.reset (b : Bundle) : Bundle := (Bundle._cluster ⊤ b).update

/-- Fancy indexing `self.streamlines[indices]`. -/
def gatherIdx (strm : List Feature) (idxs : List ℕ) : List Feature :=
  idxs.map (fun i => strm.getD i [])

/-- `Bundle.get_cluster_as_bundles()`: materialize the current clusters as
child bundles.  Raises (`NameError`) when the clusters attribute is unset;
with exactly one cluster the single child keeps the parent's own color,
otherwise each child carries its cluster's color from `clusters_colors`. -/
def Bundle.get_cluster_as_bundles (b : Bundle) : Except String (List Bundle) :=
  match b.clusters with
  | none => .error "Streamlines need to be clustered first!"
  | some [c] =>
    .ok [Bundle.init (gatherIdx b.streamlines c.indices) (some c.centroid)
          b.last_threshold b.color]
  | some cs =>
    .ok ((cs.zip b.clusters_colors).map
          (fun p => Bundle.init (gatherIdx b.streamlines p.1.indices)
            (some p.1.centroid) b.last_threshold p.2))

/-- The kind of a remembered curation action (`"like"` / `"dislike"`). -/
inductive UndoAction where
  | like
  | dislike
deriving DecidableEq

/-- One entry of the undo memory: `{"action": ..., "bundle_name": ...,
"bundle": ...}`. -/
structure UndoRecord where
  action : UndoAction
  bundle_name : String
  bundle : Bundle
deriving DecidableEq

/-- Appending to `collections.deque(maxlen=cap)`, with the newest entry at the
head of the list: with a bounded capacity the oldest entries beyond the
capacity are silently evicted. -/
def pushUndo (cap : Option ℕ) (r : UndoRecord) (m : List UndoRecord) :
    List UndoRecord :=
  match cap with
  | none => r :: m
  | some k => (r :: m).take k

/-- Python `xs[:-n]` (note that for `n = 0` this is `xs[:0]`, the empty
list). -/
def pyDropTail {α : Type} (xs : List α) (n : ℕ) : List α :=
  if n = 0 then [] else xs.take (xs.length - n)

/-- The state of a `StreamlinesVizu` session.  The rendering scene, panels,
sliders and file-output configuration are external collaborators; the model
keeps the registry (`bundles`/`keys`), the selection, the inlier/outlier
collections, and the bounded undo memory.  `undo_maxlen` is the `maxlen` of
the `undo_memory` deque (`None` when no `--undo-memory-size` was given). -/
structure StreamlinesVizu where
  bundles : List (String × Bundle)
  root_bundle : String
  keys : List String
  selected_bundle : Option String
  inliers : List Feature
  outliers : List Feature
  undo_memory : List UndoRecord
  undo_maxlen : Option ℕ
  last_threshold : Option (WithTop ℚ)
  last_bundles_visibility_state : String
  cpt : Option ℕ
deriving DecidableEq

/-- Python string comparison: lexicographic on code points, i.e. the
lexicographic order of the character lists (`String.le_iff_toList_le` shows
this is the library order on `String`; the `.data` form is used because it is
the one that computes). -/
def keyLe (a b : String) : Prop := a.data ≤ b.data

instance : DecidableRel keyLe := fun a b => by unfold keyLe; infer_instance

instance : IsTotal String keyLe :=
  ⟨fun a b => total_of (· ≤ ·) a.data b.data⟩

instance : IsTrans String keyLe :=
  ⟨fun _ _ _ h1 h2 => le_trans h1 h2⟩

/-- `StreamlinesVizu.__init__(tractogram, ...)`: empty inlier/outlier
collections, empty undo memory with the configured capacity, and a registry
holding the whole tractogram as the root bundle under the key `"/"`. -/
def StreamlinesVizu.init (strm : List Feature) (cap : Option ℕ) :
    StreamlinesVizu :=
  { bundles := [("/", Bundle.init strm none (some ⊤) none)]
    root_bundle := "/"
    keys := ["/"]
    selected_bundle := none
    inliers := []
    outliers := []
    undo_memory := []
    undo_maxlen := cap
    last_threshold := none
    last_bundles_visibility_state := "dimmed"
    cpt := none }

/-- `self.bundles[name] = bundle` on a Python dict: overwrite in place when
the key exists, append a new entry otherwise. -/
def dictInsert (m : List (String × Bundle)) (k : String) (v : Bundle) :
    List (String × Bundle) :=
  if (m.lookup k).isSome then
    m.map (fun p => if p.1 = k then (k, v) else p)
  else m ++ [(k, v)]

/-- `del self.bundles[name]` on a Python dict (keys are unique, so removing
the matching entry). -/
def dictRemove (m : List (String × Bundle)) (k : String) :
    List (String × Bundle) :=
  m.filter (fun p => p.1 ≠ k)

/-- In-place mutation of one registered bundle
(`self.bundles[name].method()`). -/
def dictModify (m : List (String × Bundle)) (k : String) (f : Bundle → Bundle) :
    List (String × Bundle) :=
  m.map (fun p => if p.1 = k then (p.1, f p.2) else p)

/-- `StreamlinesVizu.add_bundle(bundle_name, bundle)`: append the key, re-sort
the key list, and register the bundle (the renderer insertion is external). -/
def StreamlinesVizu.add_bundle (name : String) (b : Bundle)
    (s : StreamlinesVizu) : StreamlinesVizu :=
  { s with
    keys := List.insertionSort keyLe (s.keys ++ [name])
    bundles := dictInsert s.bundles name b }

/-- `StreamlinesVizu.remove_bundle(bundle_name)`: remove the key, re-sort, and
drop the registry entry. -/
def StreamlinesVizu.remove_bundle (name : String) (s : StreamlinesVizu) :
    StreamlinesVizu :=
  { s with
    keys := List.insertionSort keyLe (s.keys.erase name)
    bundles := dictRemove s.bundles name }

/-- `len(self.bundles[k].streamlines)`, the sort key for selection cycling. -/
def bundleSize (s : StreamlinesVizu) (k : String) : ℕ :=
  match s.bundles.lookup k with
  | some b => b.streamlines.length
  | none => 0

/-- The key at position `i` of `self.keys`. -/
def keyAt (s : StreamlinesVizu) (i : ℕ) : String := s.keys.getD i ""

/-- The comparison underlying `np.lexsort((self.keys, sizes))`: position `i`
comes before position `j` when its bundle is smaller, ties broken by the key
string. -/
def rankLeAux (ks : List String) (sz : String → ℕ) (i j : ℕ) : Prop :=
  sz (ks.getD i "") < sz (ks.getD j "") ∨
    (sz (ks.getD i "") = sz (ks.getD j "") ∧ keyLe (ks.getD i "") (ks.getD j ""))

instance (ks : List String) (sz : String → ℕ) : DecidableRel (rankLeAux ks sz) :=
  fun i j => by unfold rankLeAux; infer_instance

/-- `np.lexsort((self.keys, sizes)).tolist()[::-1]`: the positions of `keys`
sorted by ascending `(size, key)` and then reversed, i.e. descending size with
ties in descending key order. -/
def rankPermAux (ks : List String) (sz : String → ℕ) : List ℕ :=
  (List.insertionSort (rankLeAux ks sz) (List.range ks.length)).reverse

/-- The selection-cycling order of the current session state. -/
def rankPerm (s : StreamlinesVizu) : List ℕ :=
  rankPermAux s.keys (bundleSize s)

/-- `StreamlinesVizu.select(bundle_name)`: reset the previously selected
bundle when it is still registered; then either deselect (close the panels)
or record the new selection and run `preview` on it at the slider threshold
`pt` (the slider itself is an external collaborator, so its value is a
parameter). -/
def StreamlinesVizu.select (pt : WithTop ℚ) (nameOpt : Option String)
    (s : StreamlinesVizu) : StreamlinesVizu :=
  let s0 :=
    match s.selected_bundle with
    | some old =>
      if (s.bundles.lookup old).isSome then
        { s with bundles := dictModify s.bundles old Bundle.reset }
      else s
    | none => s
  match nameOpt with
  | none => { s0 with selected_bundle := none, cpt := none }
  | some name =>
    { s0 with
      selected_bundle := some name
      bundles := dictModify s0.bundles name (fun b => (Bundle.preview pt b).1) }

/-- `StreamlinesVizu.select_next()`: move the selection one step forward in
the size-descending cycling order, wrapping around. -/
def StreamlinesVizu.select_next (pt : WithTop ℚ) (s : StreamlinesVizu) :
    StreamlinesVizu :=
  let indices := rankPerm s
  let cpt : ℕ :=
    match s.selected_bundle with
    | none => 0
    | some sel =>
      (indices.indexOf (s.keys.indexOf sel) + 1) % s.keys.length
  StreamlinesVizu.select pt (some (keyAt s (indices.getD cpt 0))) s

/-- `StreamlinesVizu.select_previous()`: one step backward in the cycling
order. -/
def StreamlinesVizu.select_previous (pt : WithTop ℚ) (s : StreamlinesVizu) :
    StreamlinesVizu :=
  let indices := rankPerm s
  let cpt : ℕ :=
    match s.selected_bundle with
    | none => 0
    | some sel =>
      (indices.indexOf (s.keys.indexOf sel) + s.keys.length - 1) % s.keys.length
  StreamlinesVizu.select pt (some (keyAt s (indices.getD cpt 0))) s

/-- `like_bundle()` (the accept action): push one undo record for the selected
bundle, append its streamlines to the inliers, advance the selection, and
remove the bundle from the registry.  A call with no valid selection raises in
Python (`KeyError`); the model leaves the state unchanged there. -/
def StreamlinesVizu.like_bundle (pt : WithTop ℚ) (s : StreamlinesVizu) :
    StreamlinesVizu :=
  match s.selected_bundle with
  | none => s
  | some name =>
    match s.bundles.lookup name with
    | none => s
    | some b =>
      let s1 :=
        { s with
          undo_memory := pushUndo s.undo_maxlen ⟨.like, name, b⟩ s.undo_memory
          inliers := s.inliers ++ b.streamlines }
      (s1.select_next pt).remove_bundle name

/-- `dislike_bundle()` (the reject action): as `like_bundle`, but the
streamlines go to the outliers. -/
def StreamlinesVizu.dislike_bundle (pt : WithTop ℚ) (s : StreamlinesVizu) :
    StreamlinesVizu :=
  match s.selected_bundle with
  | none => s
  | some name =>
    match s.bundles.lookup name with
    | none => s
    | some b =>
      let s1 :=
        { s with
          undo_memory := pushUndo s.undo_maxlen ⟨.dislike, name, b⟩ s.undo_memory
          outliers := s.outliers ++ b.streamlines }
      (s1.select_next pt).remove_bundle name

/-- `undo()`: pop the most recent record (a no-op when the memory is empty),
truncate the inlier or outlier collection by the Python slice
`[:-len(bundle.streamlines)]`, re-register the bundle under its original name
and re-select it. -/
def StreamlinesVizu.undo (pt : WithTop ℚ) (s : StreamlinesVizu) :
    StreamlinesVizu :=
  match s.undo_memory with
  | [] => s
  | rec :: rest =>
    let s1 := { s with undo_memory := rest }
    match rec.action with
    | .like =>
      let s2 := { s1 with
        inliers := pyDropTail s1.inliers rec.bundle.streamlines.length }
      (s2.add_bundle rec.bundle_name rec.bundle).select pt (some rec.bundle_name)
    | .dislike =>
      let s2 := { s1 with
        outliers := pyDropTail s1.outliers rec.bundle.streamlines.length }
      (s2.add_bundle rec.bundle_name rec.bundle).select pt (some rec.bundle_name)

/-- The implicit registry invariant of claim C10: the key list is sorted
ascending, duplicate-free, and holds exactly the keys of the bundle map. -/
def goodKeys (s : StreamlinesVizu) : Prop :=
  s.keys.Sorted keyLe ∧ s.keys.Nodup ∧ s.keys.Perm (s.bundles.map Prod.fst)

instance (s : StreamlinesVizu) : Decidable (goodKeys s) := by
  unfold goodKeys; infer_instance

/-- Exactly one of the two representation flags of a bundle is set. -/
def activeReprUnique (b : Bundle) : Prop :=
  b.centroids_visible ≠ b.streamlines_visible

/-- A one-streamline bundle used in concrete instances. -/
def exBundleOne : Bundle := Bundle.init [[0, 0]] none (some ⊤) none

/-- A two-streamline bundle used in concrete instances. -/
def exBundleTwo : Bundle := Bundle.init [[0, 0], [6, 6]] none (some ⊤) none

/-- A bundle over an empty streamline collection. -/
def exBundleEmpty : Bundle := Bundle.init [] none (some ⊤) none

/-- A bundle with an explicit color whose two identical streamlines collapse
into one cluster at the infinite threshold. -/
def exColored : Bundle :=
  Bundle.init [[0, 0], [0, 0]] none (some ⊤) (some ((1 : ℚ), 0, 0))

/-- The concrete cluster list of `exColored` after `_cluster(inf)`. -/
def exColoredCs : List QBCluster :=
  ((Bundle._cluster ⊤ exColored).clusters).getD []

/-- A bundle value whose clusters attribute is unset (the `None` sentinel the
`get_cluster_as_bundles` guard tests). -/
def exUnclustered : Bundle :=
  { streamlines := []
    color := none
    centroid := none
    clusters := none
    clusters_colors := [none]
    streamlines_colors := []
    threshold_used := none
    last_threshold := none
    has_changed := true
    centroids_visible := false
    streamlines_visible := true
    original_colors := [] }

/-- A concrete undo record. -/
def exRecord : UndoRecord := ⟨.like, "/", exBundleOne⟩

/-- The four-streamline collection witnessing non-monotone cluster counts. -/
def exFeatures : List Feature := [[0, 0], [6, 6], [-4, -4], [10, 10]]

/-- A session holding a one-streamline bundle under `"/"`, an empty bundle
under `"/e/"` (selected), and one streamline already accepted into the
inliers. -/
def exState : StreamlinesVizu :=
  { bundles := [("/", exBundleOne), ("/e/", exBundleEmpty)]
    root_bundle := "/"
    keys := ["/", "/e/"]
    selected_bundle := some "/e/"
    inliers := [[0, 0]]
    outliers := []
    undo_memory := []
    undo_maxlen := some 2
    last_threshold := none
    last_bundles_visibility_state := "dimmed"
    cpt := none }

/-- A two-bundle session with a live selection, used for cycling. -/
def exState9 : StreamlinesVizu :=
  { bundles := [("/", exBundleTwo), ("/0/", exBundleOne)]
    root_bundle := "/"
    keys := ["/", "/0/"]
    selected_bundle := some "/0/"
    inliers := []
    outliers := []
    undo_memory := []
    undo_maxlen := some 2
    last_threshold := none
    last_bundles_visibility_state := "dimmed"
    cpt := none }

/-! ## Basic facts about `Bundle._cluster` -/

theorem _cluster_streamlines (t : WithTop ℚ) (b : Bundle) :
    (Bundle._cluster t b).streamlines = b.streamlines := by
  unfold Bundle._cluster; dsimp only; split <;> rfl

theorem _cluster_color (t : WithTop ℚ) (b : Bundle) :
    (Bundle._cluster t b).color = b.color := by
  unfold Bundle._cluster; dsimp only; split <;> rfl

theorem _cluster_centroids_visible (t : WithTop ℚ) (b : Bundle) :
    (Bundle._cluster t b).centroids_visible = b.centroids_visible := by
  unfold Bundle._cluster; dsimp only; split <;> rfl

theorem _cluster_streamlines_visible (t : WithTop ℚ) (b : Bundle) :
    (Bundle._cluster t b).streamlines_visible = b.streamlines_visible := by
  unfold Bundle._cluster; dsimp only; split <;> rfl

theorem _cluster_clusters (t : WithTop ℚ) (b : Bundle) :
    (Bundle._cluster t b).clusters = some (qbCluster t b.streamlines) := by
  unfold Bundle._cluster; dsimp only; split <;> rfl

theorem init_color (strm : List Feature) (cen : Option Feature)
    (thr : Option (WithTop ℚ)) (col : Option Color) :
    (Bundle.init strm cen thr col).color = col := by
  unfold Bundle.init; rw [_cluster_color]

theorem init_streamlines (strm : List Feature) (cen : Option Feature)
    (thr : Option (WithTop ℚ)) (col : Option Color) :
    (Bundle.init strm cen thr col).streamlines = strm := by
  unfold Bundle.init; rw [_cluster_streamlines]

/-! ## C5: get_cluster_as_bundles before clustering -/

/-- C5: calling `get_cluster_as_bundles` on a bundle in the never-clustered
state (the unset clusters sentinel that the guard checks) reports an
invalid-state error instead of silently proceeding. -/
theorem get_cluster_unclustered_error (b : Bundle) (h : b.clusters = none) :
    b.get_cluster_as_bundles
      = Except.error "Streamlines need to be clustered first!" := by
  unfold Bundle.get_cluster_as_bundles; rw [h]

/-- Witness for C5 at a concrete never-clustered bundle value. -/
theorem get_cluster_unclustered_error_witness :
    exUnclustered.get_cluster_as_bundles
      = Except.error "Streamlines need to be clustered first!" :=
  get_cluster_unclustered_error exUnclustered rfl

/-! ## C7: undo with an empty log -/

/-- C7: `undo()` on an empty undo memory is a total no-op: the whole session
state — in particular the bundle registry, the inliers and the outliers — is
returned unchanged, with no exception surfaced. -/
theorem undo_empty_noop (pt : WithTop ℚ) (s : StreamlinesVizu)
    (h : s.undo_memory = []) : s.undo pt = s := by
  unfold StreamlinesVizu.undo; rw [h]

/-- Witness for C7 at a freshly initialized session. -/
theorem undo_empty_noop_witness :
    (StreamlinesVizu.init [] (some 2)).undo ⊤ = StreamlinesVizu.init [] (some 2) :=
  undo_empty_noop ⊤ (StreamlinesVizu.init [] (some 2)) rfl

/-! ## C8: the visibility-flag invariant -/

/-- C8 counterexample: `show_centroids` alone, on a freshly constructed bundle
(whose streamlines are visible), leaves both representation flags set, so the
exactly-one invariant is not preserved by every individual show/hide
operation. -/
theorem show_centroids_breaks_unique_repr :
    ¬ activeReprUnique (Bundle.show_centroids exBundleOne) := by
  unfold activeReprUnique; decide

/-- C8 (amended): exactly one representation flag is set at construction, and
the paired toggles actually issued by the controller (`show_centroids` then
`hide_streamlines`, and `hide_centroids` then `show_streamlines`) always
re-establish the exactly-one invariant; a single show/hide call alone need
not preserve it. -/
theorem unique_repr_amended (strm : List Feature) (cen : Option Feature)
    (thr : Option (WithTop ℚ)) (col : Option Color) (b : Bundle) :
    activeReprUnique (Bundle.init strm cen thr col)
    ∧ activeReprUnique (Bundle.hide_streamlines (Bundle.show_centroids b))
    ∧ activeReprUnique (Bundle.show_streamlines (Bundle.hide_centroids b)) := by
  refine ⟨?_, ?_, ?_⟩
  · unfold activeReprUnique Bundle.init
    rw [_cluster_centroids_visible, _cluster_streamlines_visible]
    simp
  · simp [activeReprUnique, Bundle.hide_streamlines, Bundle.show_centroids,
      Bundle.update]
  · simp [activeReprUnique, Bundle.show_streamlines, Bundle.hide_centroids]

/-! ## C2: the bounded undo memory -/

theorem select_undo_memory (pt : WithTop ℚ) (o : Option String)
    (s : StreamlinesVizu) :
    (StreamlinesVizu.select pt o s).undo_memory = s.undo_memory := by
  unfold StreamlinesVizu.select
  cases s.selected_bundle <;> cases o <;> dsimp only <;> try rfl
  all_goals split <;> rfl

theorem select_next_undo_memory (pt : WithTop ℚ) (s : StreamlinesVizu) :
    (s.select_next pt).undo_memory = s.undo_memory := by
  unfold StreamlinesVizu.select_next
  exact select_undo_memory pt _ s

theorem remove_bundle_undo_memory (name : String) (s : StreamlinesVizu) :
    (s.remove_bundle name).undo_memory = s.undo_memory := rfl

theorem add_bundle_undo_memory (name : String) (b : Bundle)
    (s : StreamlinesVizu) :
    (s.add_bundle name b).undo_memory = s.undo_memory := rfl

theorem pushUndo_some_eq_take (k : ℕ) (r : UndoRecord) (m : List UndoRecord) :
    pushUndo (some k) r m = (r :: m).take k := rfl

theorem take_append_take {α : Type} (k : ℕ) (a b : List α) :
    (a ++ b.take k).take k = (a ++ b).take k := by
  rw [List.take_append_eq_append_take, List.take_append_eq_append_take,
    List.take_take]
  rw [Nat.min_eq_left (Nat.sub_le k a.length)]

theorem foldl_pushUndo (k : ℕ) (recs : List UndoRecord) :
    ∀ (m : List UndoRecord), recs ≠ [] →
      recs.foldl (fun acc r => pushUndo (some k) r acc) m
        = (recs.reverse ++ m).take k := by
  induction recs with
  | nil => intro m h; exact absurd rfl h
  | cons r rs ih =>
    intro m _
    rcases eq_or_ne rs [] with h | h
    · subst h; simp [pushUndo_some_eq_take]
    · rw [List.foldl_cons, ih _ h, pushUndo_some_eq_take, take_append_take]
      rw [List.reverse_cons, List.append_assoc, List.singleton_append]

/-- C2: with undo-log capacity `K`, a push never leaves more than `K`
records; folding `K + 1` pushes keeps exactly the records of the last `K`
pushed actions (newest first) and silently evicts the oldest; and every
accept/reject action on a valid selection performs exactly one such push. -/
theorem undo_memory_capacity (K : ℕ) (recs mem : List UndoRecord)
    (hlen : recs.length = K + 1) :
    (∀ (r : UndoRecord) (m : List UndoRecord),
        (pushUndo (some K) r m).length ≤ K)
    ∧ recs.foldl (fun acc r => pushUndo (some K) r acc) mem
        = recs.reverse.take K
    ∧ (∀ (pt : WithTop ℚ) (s : StreamlinesVizu) (name : String) (b : Bundle),
        s.selected_bundle = some name → s.bundles.lookup name = some b →
        (s.like_bundle pt).undo_memory
            = pushUndo s.undo_maxlen ⟨.like, name, b⟩ s.undo_memory
          ∧ (s.dislike_bundle pt).undo_memory
            = pushUndo s.undo_maxlen ⟨.dislike, name, b⟩ s.undo_memory) := by
  refine ⟨?_, ?_, ?_⟩
  · intro r m
    rw [pushUndo_some_eq_take]
    simp
  · have hne : recs ≠ [] := by
      intro h; rw [h] at hlen; exact Nat.succ_ne_zero K hlen.symm
    rw [foldl_pushUndo K recs mem hne, List.take_append_eq_append_take]
    have : K - recs.reverse.length = 0 := by
      rw [List.length_reverse, hlen]; omega
    rw [this, List.take_zero, List.append_nil]
  · intro pt s name b hsel hlook
    constructor
    · unfold StreamlinesVizu.like_bundle
      rw [hsel]; dsimp only; rw [hlook]; dsimp only
      rw [remove_bundle_undo_memory, select_next_undo_memory]
    · unfold StreamlinesVizu.dislike_bundle
      rw [hsel]; dsimp only; rw [hlook]; dsimp only
      rw [remove_bundle_undo_memory, select_next_undo_memory]

/-- Witness for C2 with capacity 2 and three pushed records. -/
theorem undo_memory_capacity_witness :
    [exRecord, exRecord, exRecord].foldl
        (fun acc r => pushUndo (some 2) r acc) []
      = [exRecord, exRecord] :=
  ((undo_memory_capacity 2 [exRecord, exRecord, exRecord] [] rfl).2.1).trans rfl

/-! ## C3 and C4: clustering at the infinite threshold -/

theorem qbRun_top_single (fs : List Feature) :
    ∀ (i : ℕ) (c : QBCluster), ∃ cent,
      qbRun ⊤ i [c] fs = [⟨cent, c.indices ++ List.range' i fs.length⟩] := by
  induction fs with
  | nil =>
    intro i c
    exact ⟨c.centroid, by simp [qbRun, List.range']⟩
  | cons f fs ih =>
    intro i c
    have hmin : minDistIdx f [c] = some (0, mdf f c.centroid) := rfl
    have hstep : qbStep ⊤ [c] i f
        = [⟨updateCentroid c.centroid c.indices.length f, c.indices ++ [i]⟩] := by
      unfold qbStep
      rw [hmin]
      simp [addToCluster]
    obtain ⟨cent, hc⟩ :=
      ih (i + 1) ⟨updateCentroid c.centroid c.indices.length f, c.indices ++ [i]⟩
    refine ⟨cent, ?_⟩
    show qbRun ⊤ (i + 1) (qbStep ⊤ [c] i f) fs = _
    rw [hstep, hc]
    simp [List.range', List.append_assoc]

theorem qbCluster_top_nonempty (f : Feature) (fs : List Feature) :
    ∃ cent, qbCluster ⊤ (f :: fs)
      = [⟨cent, List.range (fs.length + 1)⟩] := by
  obtain ⟨cent, hc⟩ := qbRun_top_single fs 1 ⟨f, [0]⟩
  refine ⟨cent, ?_⟩
  show qbRun ⊤ 1 (qbStep ⊤ [] 0 f) fs = _
  have hstep : qbStep ⊤ [] 0 f = [⟨f, [0]⟩] := rfl
  rw [hstep, hc]
  congr 1
  simp [List.range_eq_range', List.range']

theorem addToCluster_length (f : Feature) :
    ∀ (cs : List QBCluster) (j i : ℕ),
      (addToCluster cs j i f).length = cs.length := by
  intro cs
  induction cs with
  | nil => intro j i; rfl
  | cons c rest ih =>
    intro j i
    cases j with
    | zero => rfl
    | succ j => simpa [addToCluster] using ih j i

theorem length_le_qbStep (t : WithTop ℚ) (acc : List QBCluster) (i : ℕ)
    (f : Feature) : acc.length ≤ (qbStep t acc i f).length := by
  unfold qbStep
  cases minDistIdx f acc with
  | none => simp
  | some jd =>
    obtain ⟨j, d⟩ := jd
    dsimp only
    split
    · rw [addToCluster_length]
    · simp

theorem length_le_qbRun (t : WithTop ℚ) (fs : List Feature) :
    ∀ (i : ℕ) (acc : List QBCluster),
      acc.length ≤ (qbRun t i acc fs).length := by
  induction fs with
  | nil => intro i acc; simp [qbRun]
  | cons f fs ih =>
    intro i acc
    exact (length_le_qbStep t acc i f).trans (ih (i + 1) (qbStep t acc i f))

theorem one_le_qbCluster_length (t : WithTop ℚ) (f : Feature)
    (fs : List Feature) : 1 ≤ (qbCluster t (f :: fs)).length := by
  show 1 ≤ (qbRun t 1 (qbStep t [] 0 f) fs).length
  have hstep : qbStep t [] 0 f = [⟨f, [0]⟩] := rfl
  rw [hstep]
  exact length_le_qbRun t fs 1 [⟨f, [0]⟩]

/-- C3 (amended): for every bundle with at least one streamline,
`preview(+inf)` returns exactly 1, and the single resulting cluster contains
all the bundle's input streamlines (its indices are exactly
`0, ..., n - 1`). -/
theorem preview_inf_single_cluster (b : Bundle) (h : b.streamlines ≠ []) :
    (Bundle.preview ⊤ b).2 = 1
    ∧ ∃ c, (Bundle.preview ⊤ b).1.clusters = some [c]
        ∧ c.indices = List.range b.streamlines.length := by
  obtain ⟨f, fs, hfs⟩ := List.exists_cons_of_ne_nil h
  obtain ⟨cent, hc⟩ := qbCluster_top_nonempty f fs
  have hq : qbCluster ⊤ b.streamlines
      = [⟨cent, List.range b.streamlines.length⟩] := by
    rw [hfs, hc]; simp [hfs]
  have hcl : (Bundle.preview ⊤ b).1.clusters
      = some [⟨cent, List.range b.streamlines.length⟩] := by
    show ((Bundle._cluster ⊤ b).update).clusters = _
    unfold Bundle.update
    rw [_cluster_clusters, hq]
  refine ⟨?_, ⟨cent, List.range b.streamlines.length⟩, hcl, rfl⟩
  show ((Bundle.preview ⊤ b).1.clusters.getD []).length = 1
  rw [hcl]
  rfl

/-- C3 counterexample: a bundle over the empty streamline collection yields
zero clusters at the infinite threshold, not one. -/
theorem preview_inf_empty_zero :
    (Bundle.preview ⊤ exBundleEmpty).2 = 0
    ∧ ¬ (Bundle.preview ⊤ exBundleEmpty).2 = 1 := by
  constructor <;> decide

/-- Witness for C3 at a concrete two-streamline bundle. -/
theorem preview_inf_single_cluster_witness :
    (Bundle.preview ⊤ exBundleTwo).2 = 1
    ∧ ∃ c, (Bundle.preview ⊤ exBundleTwo).1.clusters = some [c]
        ∧ c.indices = List.range exBundleTwo.streamlines.length :=
  preview_inf_single_cluster exBundleTwo (by decide)

/-- C4 (amended): threshold monotonicity fails in general (see the
counterexample), but it does hold against the infinite-threshold endpoint:
for every nonempty collection and every threshold `t`, clustering at `+inf`
yields a cluster count (namely one) that is at most the count at `t`. -/
theorem qbCluster_top_coarsest (t : WithTop ℚ) (fs : List Feature)
    (h : fs ≠ []) :
    (qbCluster ⊤ fs).length ≤ (qbCluster t fs).length := by
  obtain ⟨f, fs2, rfl⟩ := List.exists_cons_of_ne_nil h
  obtain ⟨cent, hc⟩ := qbCluster_top_nonempty f fs2
  rw [hc]
  simpa using one_le_qbCluster_length t f fs2

/-- C4 counterexample: on a concrete four-streamline collection, the
thresholds 5 < 6 produce 2 and 3 clusters respectively, so a larger threshold
can yield strictly more clusters than a smaller one. -/
theorem qbCluster_not_monotone :
    ((5 : ℚ) : WithTop ℚ) < ((6 : ℚ) : WithTop ℚ)
    ∧ ¬ ((qbCluster ((6 : ℚ) : WithTop ℚ) exFeatures).length
          ≤ (qbCluster ((5 : ℚ) : WithTop ℚ) exFeatures).length) := by
  constructor
  · exact_mod_cast (by norm_num : (5 : ℚ) < 6)
  · have h6 : (qbCluster ((6 : ℚ) : WithTop ℚ) exFeatures).length = 3 := by
      norm_num [exFeatures, qbCluster, qbRun, qbStep, minDistIdx, addToCluster,
        mdf, absQ, updateCentroid]
      split_ifs with h1
      · exact absurd h1 (by exact_mod_cast (show ¬ (7 : ℚ) ≤ 6 by norm_num))
      · rfl
    have h5 : (qbCluster ((5 : ℚ) : WithTop ℚ) exFeatures).length = 2 := by
      norm_num [exFeatures, qbCluster, qbRun, qbStep, minDistIdx, addToCluster,
        mdf, absQ, updateCentroid]
      split_ifs with h1 h2
      · rfl
      · exact absurd (WithTop.coe_le_coe.mpr (show (4 : ℚ) ≤ 5 by norm_num)) h1
      · exact absurd (WithTop.coe_le_coe.mpr (show (4 : ℚ) ≤ 5 by norm_num)) h1
    rw [h5, h6]
    omega

/-- Witness for C4 at the concrete four-streamline collection and
threshold 5. -/
theorem qbCluster_top_coarsest_witness :
    (qbCluster ⊤ exFeatures).length
      ≤ (qbCluster ((5 : ℚ) : WithTop ℚ) exFeatures).length :=
  qbCluster_top_coarsest ((5 : ℚ) : WithTop ℚ) exFeatures (by decide)

/-! ## C6: child-bundle colors after a split -/

theorem _cluster_colors_of_ne_one (t : WithTop ℚ) (b : Bundle)
    (h : (qbCluster t b.streamlines).length ≠ 1) :
    (Bundle._cluster t b).clusters_colors
      = (List.range (qbCluster t b.streamlines).length).map
          (fun i => some (genColor i)) := by
  unfold Bundle._cluster; dsimp only; rw [if_neg h]

theorem map_snd_zip_of_length_eq {α β : Type} (l1 : List α) (l2 : List β)
    (h : l1.length = l2.length) : (l1.zip l2).map Prod.snd = l2 := by
  induction l1 generalizing l2 with
  | nil =>
    cases l2 with
    | nil => rfl
    | cons b l2 => simp at h
  | cons a l1 ih =>
    cases l2 with
    | nil => simp at h
    | cons b l2 =>
      simp only [List.zip_cons_cons, List.map_cons]
      rw [ih l2 (by simpa using h)]

/-- C6: after re-clustering at any threshold, if exactly one cluster results
then `get_cluster_as_bundles` returns exactly one child bundle whose color is
the parent's own color (in particular the parent's explicit color when it has
one), bypassing the generated cluster color; with two or more clusters every
child carries its cluster's generated color. -/
theorem get_cluster_colors (b : Bundle) (t : WithTop ℚ) (cs : List QBCluster)
    (h : (Bundle._cluster t b).clusters = some cs) :
    (cs.length = 1 →
      ((Bundle._cluster t b).get_cluster_as_bundles).toOption.map
          (List.map Bundle.color)
        = some [b.color])
    ∧ (2 ≤ cs.length →
      ((Bundle._cluster t b).get_cluster_as_bundles).toOption.map
          (List.map Bundle.color)
        = some ((List.range cs.length).map (fun i => some (genColor i)))) := by
  have hq : qbCluster t b.streamlines = cs := by
    rw [_cluster_clusters] at h
    exact Option.some_injective _ h
  constructor
  · intro h1
    obtain ⟨c, rfl⟩ := List.length_eq_one.mp h1
    unfold Bundle.get_cluster_as_bundles
    rw [h]
    dsimp only
    simp [Except.toOption, init_color, _cluster_color]
  · intro h2
    have hcolors : (Bundle._cluster t b).clusters_colors
        = (List.range cs.length).map (fun i => some (genColor i)) := by
      rw [← hq]
      exact _cluster_colors_of_ne_one t b (by rw [hq]; omega)
    match cs, h2 with
    | c1 :: c2 :: rest, _ =>
      unfold Bundle.get_cluster_as_bundles
      rw [h]
      dsimp only
      rw [hcolors]
      simp only [Except.toOption, Option.map_some]
      refine congrArg some ?_
      rw [List.map_map]
      refine Eq.trans (List.map_congr_left ?_)
        (map_snd_zip_of_length_eq _ _ (by simp))
      intro p _
      exact init_color _ _ _ _

/-- The concrete conclusion of C6 at `exColored` (two identical streamlines
collapse to one cluster, and the child keeps the parent's explicit color). -/
theorem get_cluster_colors_witness :
    ((Bundle._cluster ⊤ exColored).get_cluster_as_bundles).toOption.map
        (List.map Bundle.color)
      = some [exColored.color] :=
  (get_cluster_colors exColored ⊤ exColoredCs rfl).1 (by decide)

/-! ## C10: the registry key-list invariant -/

theorem lookup_eq_none_of_not_mem_fst (m : List (String × Bundle)) (k : String)
    (h : k ∉ m.map Prod.fst) : m.lookup k = none := by
  induction m with
  | nil => rfl
  | cons p ps ih =>
    simp only [List.map_cons, List.mem_cons, not_or] at h
    simp [List.lookup, beq_eq_false_iff_ne.mpr h.1, ih h.2]

theorem map_fst_dictRemove (m : List (String × Bundle)) (k : String) :
    (dictRemove m k).map Prod.fst
      = (m.map Prod.fst).filter (fun x => x ≠ k) := by
  induction m with
  | nil => rfl
  | cons p ps ih =>
    by_cases h : p.1 = k <;>
      simp [dictRemove, List.filter_cons, h, ih] <;>
      simp [dictRemove] at ih <;> exact ih

/-- C10 (amended): the key-list invariant — `keys` sorted ascending,
duplicate-free, and exactly the keys of the `bundles` mapping — holds at
session construction, is preserved by `add_bundle` whenever the added name is
not already registered (the only way the program calls it), and is preserved
by `remove_bundle` unconditionally; `add_bundle` with a duplicate name breaks
it (see the counterexample). -/
theorem registry_keys_invariant (strm : List Feature) (cap : Option ℕ)
    (s : StreamlinesVizu) (nameA nameR : String) (b : Bundle)
    (hg : goodKeys s) (hA : nameA ∉ s.keys) :
    goodKeys (StreamlinesVizu.init strm cap)
    ∧ goodKeys (s.add_bundle nameA b)
    ∧ goodKeys (s.remove_bundle nameR) := by
  obtain ⟨hs, hnd, hperm⟩ := hg
  refine ⟨⟨List.sorted_singleton _, List.nodup_singleton _, List.Perm.refl _⟩,
    ?_, ?_⟩
  · have hpermAdd : (List.insertionSort keyLe (s.keys ++ [nameA])).Perm
        (s.keys ++ [nameA]) := List.perm_insertionSort keyLe _
    have hndApp : (s.keys ++ [nameA]).Nodup := by
      rw [List.nodup_append]
      refine ⟨hnd, List.nodup_singleton _, ?_⟩
      intro x hx hx2
      simp only [List.mem_singleton] at hx2
      exact hA (hx2 ▸ hx)
    have hlookupA : s.bundles.lookup nameA = none :=
      lookup_eq_none_of_not_mem_fst _ _ (fun hmem => hA (hperm.mem_iff.mpr hmem))
    refine ⟨List.sorted_insertionSort keyLe _, hpermAdd.nodup_iff.mpr hndApp, ?_⟩
    show (List.insertionSort keyLe (s.keys ++ [nameA])).Perm
      ((dictInsert s.bundles nameA b).map Prod.fst)
    unfold dictInsert
    rw [hlookupA]
    simp only [Option.isSome_none, Bool.false_eq_true, if_false, List.map_append]
    exact hpermAdd.trans (hperm.append_right _)
  · have hndFst : (s.bundles.map Prod.fst).Nodup := hperm.nodup_iff.mp hnd
    refine ⟨List.sorted_insertionSort keyLe _,
      (List.perm_insertionSort keyLe _).nodup_iff.mpr (hnd.erase nameR), ?_⟩
    show (List.insertionSort keyLe (s.keys.erase nameR)).Perm
      ((dictRemove s.bundles nameR).map Prod.fst)
    have h1 : (dictRemove s.bundles nameR).map Prod.fst
        = (s.bundles.map Prod.fst).erase nameR := by
      rw [map_fst_dictRemove, List.Nodup.erase_eq_filter hndFst]
      refine (List.filter_congr ?_).symm
      intro x _
      by_cases hx : x = nameR <;> simp [hx]
    rw [h1]
    exact (List.perm_insertionSort keyLe _).trans (hperm.erase nameR)

/-- C10 counterexample: registering the same name twice leaves a duplicate in
the key list, so the invariant does not hold after every `add_bundle` call. -/
theorem registry_keys_invariant_violated :
    ¬ goodKeys ((StreamlinesVizu.init [] (some 2)).add_bundle "/0/" exBundleEmpty
        |>.add_bundle "/0/" exBundleEmpty) := by decide

/-- Witness for C10 at a concrete fresh session, fresh added name, and the
root key removed. -/
theorem registry_keys_invariant_witness :
    goodKeys (StreamlinesVizu.init [] (some 2))
    ∧ goodKeys ((StreamlinesVizu.init [] (some 2)).add_bundle "/0/" exBundleEmpty)
    ∧ goodKeys ((StreamlinesVizu.init [] (some 2)).remove_bundle "/") := by
  have h := registry_keys_invariant [] (some 2) (StreamlinesVizu.init [] (some 2))
    "/0/" "/" exBundleEmpty (by decide) (by decide)
  exact ⟨h.1, h.2.1, h.2.2⟩

/-! ## C9: selection cycling -/

theorem lookup_dictModify (m : List (String × Bundle)) (k k2 : String)
    (f : Bundle → Bundle) :
    (dictModify m k f).lookup k2
      = if k2 = k then (m.lookup k2).map f else m.lookup k2 := by
  induction m with
  | nil => simp [dictModify]
  | cons p ps ih =>
    obtain ⟨a, b⟩ := p
    simp only [dictModify, List.map_cons] at ih ⊢
    by_cases h1 : a = k
    · rw [if_pos h1]
      by_cases h2 : k2 = a
      · have hk : k2 = k := h2.trans h1
        simp [List.lookup_cons, h2, hk, h1]
      · have hk : ¬ k2 = k := fun hh => h2 (hh.trans h1.symm)
        simp [List.lookup_cons, beq_eq_false_iff_ne.mpr h2, hk, ih]
    · rw [if_neg h1]
      by_cases h2 : k2 = a
      · have hk : ¬ k2 = k := fun hh => h1 ((h2.symm.trans hh))
        simp [List.lookup_cons, h2, hk, h1]
      · simp [List.lookup_cons, beq_eq_false_iff_ne.mpr h2, ih]

theorem select_keys (pt : WithTop ℚ) (o : Option String) (s : StreamlinesVizu) :
    (StreamlinesVizu.select pt o s).keys = s.keys := by
  unfold StreamlinesVizu.select
  cases s.selected_bundle <;> cases o <;> dsimp only <;>
    first
    | rfl
    | (split <;> rfl)

theorem select_selected_some (pt : WithTop ℚ) (name : String)
    (s : StreamlinesVizu) :
    (StreamlinesVizu.select pt (some name) s).selected_bundle = some name := by
  unfold StreamlinesVizu.select
  cases s.selected_bundle <;> dsimp only

theorem reset_streamlines (b : Bundle) :
    (Bundle.reset b).streamlines = b.streamlines := by
  unfold Bundle.reset Bundle.update
  dsimp only
  rw [_cluster_streamlines]

theorem preview_fst_streamlines (pt : WithTop ℚ) (b : Bundle) :
    (Bundle.preview pt b).1.streamlines = b.streamlines := by
  unfold Bundle.preview Bundle.update
  dsimp only
  rw [_cluster_streamlines]

theorem lookup_streamlines_dictModify (m : List (String × Bundle))
    (k2 k : String) (f : Bundle → Bundle)
    (hf : ∀ b, (f b).streamlines = b.streamlines) :
    ((dictModify m k f).lookup k2).map Bundle.streamlines
      = (m.lookup k2).map Bundle.streamlines := by
  rw [lookup_dictModify]
  split
  · cases m.lookup k2 <;> simp [hf]
  · rfl

theorem select_lookup_streamlines (pt : WithTop ℚ) (o : Option String)
    (s : StreamlinesVizu) (k : String) :
    ((StreamlinesVizu.select pt o s).bundles.lookup k).map Bundle.streamlines
      = (s.bundles.lookup k).map Bundle.streamlines := by
  unfold StreamlinesVizu.select
  cases s.selected_bundle <;> cases o <;> dsimp only
  case none.some name =>
    exact lookup_streamlines_dictModify s.bundles k name _
      (preview_fst_streamlines pt)
  case some.none old =>
    split
    · exact lookup_streamlines_dictModify s.bundles k old _ reset_streamlines
    · rfl
  case some.some old name =>
    split
    · dsimp only
      rw [lookup_streamlines_dictModify _ k name _ (preview_fst_streamlines pt)]
      exact lookup_streamlines_dictModify s.bundles k old _ reset_streamlines
    · exact lookup_streamlines_dictModify s.bundles k name _
        (preview_fst_streamlines pt)

theorem select_bundleSize (pt : WithTop ℚ) (o : Option String)
    (s : StreamlinesVizu) (k : String) :
    bundleSize (StreamlinesVizu.select pt o s) k = bundleSize s k := by
  unfold bundleSize
  have h := select_lookup_streamlines pt o s k
  cases h1 : (StreamlinesVizu.select pt o s).bundles.lookup k <;>
    cases h2 : s.bundles.lookup k <;> rw [h1, h2] at h <;> simp_all

theorem rankPerm_congr (s s2 : StreamlinesVizu) (hk : s2.keys = s.keys)
    (hsz : ∀ k, bundleSize s2 k = bundleSize s k) : rankPerm s2 = rankPerm s := by
  unfold rankPerm
  rw [hk, show bundleSize s2 = bundleSize s from funext hsz]

theorem rankPerm_perm_range (s : StreamlinesVizu) :
    (rankPerm s).Perm (List.range s.keys.length) :=
  (List.reverse_perm _).trans (List.perm_insertionSort _ _)

theorem nodup_indexOf_getElem {α : Type} [DecidableEq α] (l : List α)
    (hnd : l.Nodup) (i : ℕ) (hi : i < l.length) : l.indexOf l[i] = i := by
  have hmem : l[i] ∈ l := List.getElem_mem hi
  have hlt : l.indexOf l[i] < l.length := List.indexOf_lt_length.mpr hmem
  exact (hnd.getElem_inj_iff).mp (List.getElem_indexOf hlt)

theorem select_next_step (pt : WithTop ℚ) (s s2 : StreamlinesVizu)
    (hnd : s.keys.Nodup) (hk : s2.keys = s.keys)
    (hsz : ∀ k, bundleSize s2 k = bundleSize s k)
    (r : ℕ) (hr : r < s.keys.length)
    (hsel : s2.selected_bundle = some (keyAt s ((rankPerm s).getD r 0))) :
    (StreamlinesVizu.select_next pt s2).keys = s.keys
    ∧ (∀ k, bundleSize (StreamlinesVizu.select_next pt s2) k = bundleSize s k)
    ∧ (StreamlinesVizu.select_next pt s2).selected_bundle
        = some (keyAt s ((rankPerm s).getD ((r + 1) % s.keys.length) 0)) := by
  have hrp : rankPerm s2 = rankPerm s := rankPerm_congr s s2 hk hsz
  have hlenrp : (rankPerm s).length = s.keys.length :=
    (rankPerm_perm_range s).length_eq.trans (List.length_range _)
  have hndrp : (rankPerm s).Nodup :=
    (rankPerm_perm_range s).nodup_iff.mpr (List.nodup_range _)
  have hrlt : r < (rankPerm s).length := hlenrp ▸ hr
  have hgetD : (rankPerm s).getD r 0 = (rankPerm s)[r] :=
    List.getD_eq_getElem _ _ hrlt
  have hmlt : (rankPerm s)[r] < s.keys.length := by
    have : (rankPerm s)[r] ∈ List.range s.keys.length :=
      (rankPerm_perm_range s).mem_iff.mp (List.getElem_mem hrlt)
    exact List.mem_range.mp this
  have hkeyAt : keyAt s ((rankPerm s).getD r 0) = s.keys[(rankPerm s)[r]] := by
    rw [hgetD]; exact List.getD_eq_getElem _ _ hmlt
  have hidx1 : s.keys.indexOf (keyAt s ((rankPerm s).getD r 0))
      = (rankPerm s)[r] := by
    rw [hkeyAt]; exact nodup_indexOf_getElem s.keys hnd _ hmlt
  have hidx2 : (rankPerm s).indexOf (rankPerm s)[r] = r :=
    nodup_indexOf_getElem (rankPerm s) hndrp r hrlt
  constructor
  · show (StreamlinesVizu.select pt _ s2).keys = s.keys
    rw [select_keys]; exact hk
  constructor
  · intro k
    show bundleSize (StreamlinesVizu.select pt _ s2) k = bundleSize s k
    rw [select_bundleSize]; exact hsz k
  · show (StreamlinesVizu.select pt
        (some (keyAt s2 ((rankPerm s2).getD
          (match s2.selected_bundle with
            | none => 0
            | some sel =>
              ((rankPerm s2).indexOf (s2.keys.indexOf sel) + 1) % s2.keys.length)
          0))) s2).selected_bundle = _
    rw [select_selected_some, hsel, hrp, hk]
    have hcpt :
        (match some (keyAt s ((rankPerm s).getD r 0)) with
          | none => 0
          | some sel =>
            ((rankPerm s).indexOf (s.keys.indexOf sel) + 1) % s.keys.length)
        = (r + 1) % s.keys.length := by
      dsimp only
      rw [hidx1, hidx2]
    rw [hcpt]
    have : keyAt s2 ((rankPerm s).getD ((r + 1) % s.keys.length) 0)
        = keyAt s ((rankPerm s).getD ((r + 1) % s.keys.length) 0) := by
      unfold keyAt; rw [hk]
    rw [this]

theorem select_next_iter_aux (pt : WithTop ℚ) (s : StreamlinesVizu)
    (hnd : s.keys.Nodup) (r0 : ℕ) (hr0 : r0 < s.keys.length) :
    s.selected_bundle = some (keyAt s ((rankPerm s).getD r0 0)) →
    ∀ j : ℕ,
      ((StreamlinesVizu.select_next pt)^[j] s).keys = s.keys
      ∧ (∀ k, bundleSize ((StreamlinesVizu.select_next pt)^[j] s) k
          = bundleSize s k)
      ∧ ((StreamlinesVizu.select_next pt)^[j] s).selected_bundle
          = some (keyAt s ((rankPerm s).getD ((r0 + j) % s.keys.length) 0)) := by
  intro hsel0 j
  induction j with
  | zero =>
    refine ⟨rfl, fun k => rfl, ?_⟩
    rw [Nat.add_zero, Nat.mod_eq_of_lt hr0]
    exact hsel0
  | succ j ih =>
    obtain ⟨hk, hsz, hs⟩ := ih
    have hn : 0 < s.keys.length := Nat.lt_of_le_of_lt (Nat.zero_le r0) hr0
    have hstep := select_next_step pt s ((StreamlinesVizu.select_next pt)^[j] s)
      hnd hk hsz ((r0 + j) % s.keys.length) (Nat.mod_lt _ hn) hs
    rw [Function.iterate_succ_apply']
    refine ⟨hstep.1, hstep.2.1, ?_⟩
    rw [hstep.2.2, Nat.mod_add_mod, Nat.add_assoc]

/-- C9: with the key set held fixed, calling `select_next` exactly
`len(keys)` times from any state whose selection is a registered key returns
the selection to the starting bundle (the cycling order — descending bundle
size, ties by key order, reversed — is a fixed permutation, so stepping
through it is cyclic with period `len(keys)`). -/
theorem select_next_cyclic (pt : WithTop ℚ) (s : StreamlinesVizu)
    (name : String) (hsel : s.selected_bundle = some name)
    (hmem : name ∈ s.keys) (hnd : s.keys.Nodup) :
    ((StreamlinesVizu.select_next pt)^[s.keys.length] s).selected_bundle
      = some name := by
  have hidx : s.keys.indexOf name < s.keys.length :=
    List.indexOf_lt_length.mpr hmem
  have hmemrp : s.keys.indexOf name ∈ rankPerm s :=
    (rankPerm_perm_range s).mem_iff.mpr (List.mem_range.mpr hidx)
  have hlenrp : (rankPerm s).length = s.keys.length :=
    (rankPerm_perm_range s).length_eq.trans (List.length_range _)
  have hr0 : (rankPerm s).indexOf (s.keys.indexOf name) < (rankPerm s).length :=
    List.indexOf_lt_length.mpr hmemrp
  have e1 : (rankPerm s).getD ((rankPerm s).indexOf (s.keys.indexOf name)) 0
      = s.keys.indexOf name := by
    rw [List.getD_eq_getElem _ _ hr0]
    exact List.getElem_indexOf hr0
  have e2 : keyAt s (s.keys.indexOf name) = name := by
    unfold keyAt
    rw [List.getD_eq_getElem _ _ hidx]
    exact List.getElem_indexOf hidx
  have haux := select_next_iter_aux pt s hnd
    ((rankPerm s).indexOf (s.keys.indexOf name)) (hlenrp ▸ hr0)
    (by rw [e1, e2]; exact hsel) s.keys.length
  rw [haux.2.2, Nat.add_mod_right,
    Nat.mod_eq_of_lt (hlenrp ▸ hr0), e1, e2]

/-- Witness for C9: a concrete two-bundle session returns to its starting
selection after two `select_next` steps. -/
theorem select_next_cyclic_witness :
    ((StreamlinesVizu.select_next ⊤)^[exState9.keys.length]
        exState9).selected_bundle = some "/0/" :=
  select_next_cyclic ⊤ exState9 "/0/" rfl (by decide) (by decide)

/-! ## C1: accept followed by undo -/

/-- C1: evaluation at the failing input.  In `exState` the inliers already
hold one streamline and the selected bundle `"/e/"` is empty.  Accepting it
appends zero streamlines; `undo()` then truncates the inliers with the Python
slice `[:-len(bundle.streamlines)]`, i.e. `[:-0]`, which clears the whole
collection.  The registry entry reappears under its name, yet `len(inliers)`
drops from 1 to 0 instead of returning to its pre-accept value. -/
theorem accept_undo_empty_bundle_bug :
    exState.inliers.length = 1
    ∧ ((exState.like_bundle ⊤).undo ⊤).inliers.length = 0
    ∧ (((exState.like_bundle ⊤).undo ⊤).bundles.lookup "/e/").isSome = true := by
  refine ⟨rfl, ?_, ?_⟩ <;> decide

end SViz
